import Mathlib

/-!
Verification of the reference-reconciliation engine of `git-backup`
(`git_backup/backup.py`) and the source registry (`git_backup/sources.py`),
as a shallow embedding in Lean.

A git reference store is modelled as an association list from reference
names to reference targets, mirroring the observable behaviour of the
pygit2 calls used by the source (`lookup_reference`, `create_reference`,
`set_target`).  Ancestry (`Repository.descendant_of`) and the wall clock
(`datetime.now`) are oracles passed in as parameters.
-/

set_option maxRecDepth 4096

namespace GitBackup

/-- `ReferenceTarget`: a pygit2 reference target is either a direct object
id (`pygit2.Oid`) or a symbolic alias (a `str` naming another reference).
The source compares targets with `type(a) == type(b) and a == b`, which is
exactly equality of this sum type. -/
inductive Target where
  | oid (id : String)
  | symbolic (name : String)
deriving DecidableEq

/-- The reference store of one local clone: an association list
(reference name, target).  First match wins on lookup; real stores have
unique names. -/
abbrev RefStore := List (String × Target)

/-- `Repository.lookup_reference(name)`: `some` target, or `none`
(pygit2 raises `KeyError`). -/
def lookupRef : RefStore → String → Option Target
  | [], _ => none
  | (n, t) :: rest, name => if n = name then some t else lookupRef rest name

/-- `Repository.create_reference(name, target)`: add a new reference.  In
the source this is only ever called on a name just observed to be absent
(Case A) or guaranteed unused by `_backup_ref_name`, so the
`force=False` already-exists failure cannot fire there. -/
def createRef (store : RefStore) (name : String) (t : Target) : RefStore :=
  store ++ [(name, t)]

/-- `Reference.set_target(target, log_message)`: retarget an existing
reference, keeping its name.  The log message is recorded in the
`Outcome`, not in the store. -/
def setTarget (store : RefStore) (name : String) (t : Target) : RefStore :=
  store.map (fun p => if p.1 = name then (name, t) else p)

theorem lookupRef_append_of_isSome {s : RefStore} {m : String} {t : Target}
    (h : lookupRef s m = some t) (l : RefStore) : lookupRef (s ++ l) m = some t := by
  induction s with
  | nil => simp [lookupRef] at h
  | cons p rest ih =>
    obtain ⟨n, u⟩ := p
    by_cases hn : n = m <;> simp_all [lookupRef]

theorem lookupRef_append_of_none {s : RefStore} {m : String}
    (h : lookupRef s m = none) (l : RefStore) : lookupRef (s ++ l) m = lookupRef l m := by
  induction s with
  | nil => simp [lookupRef]
  | cons p rest ih =>
    obtain ⟨n, u⟩ := p
    by_cases hn : n = m <;> simp_all [lookupRef]

theorem lookupRef_append_of_ne {s : RefStore} {m a : String} (t : Target)
    (h : a ≠ m) : lookupRef (s ++ [(a, t)]) m = lookupRef s m := by
  induction s with
  | nil => simp [lookupRef, h]
  | cons p rest ih =>
    obtain ⟨n, u⟩ := p
    by_cases hn : n = m <;> simp_all [lookupRef]

theorem lookupRef_setTarget_self {s : RefStore} {n : String} {u : Target}
    (h : lookupRef s n = some u) (t : Target) :
    lookupRef (setTarget s n t) n = some t := by
  induction s with
  | nil => simp [lookupRef] at h
  | cons p rest ih =>
    obtain ⟨a, b⟩ := p
    simp only [setTarget, List.map_cons]
    by_cases ha : a = n
    · rw [if_pos ha]
      simp [lookupRef]
    · rw [if_neg ha]
      simp only [lookupRef, if_neg ha] at h ⊢
      exact ih h

theorem lookupRef_setTarget_ne {s : RefStore} {n m : String} (t : Target)
    (h : m ≠ n) : lookupRef (setTarget s n t) m = lookupRef s m := by
  induction s with
  | nil => simp [lookupRef, setTarget]
  | cons p rest ih =>
    obtain ⟨a, b⟩ := p
    simp only [setTarget, List.map_cons]
    by_cases ha : a = n
    · rw [if_pos ha]
      have hnm : ¬ n = m := fun hc => h hc.symm
      have ham : ¬ a = m := by rw [ha]; exact hnm
      simp only [lookupRef, if_neg hnm, if_neg ham]
      exact ih
    · rw [if_neg ha]
      by_cases ham : a = m
      · simp only [lookupRef, if_pos ham]
      · simp only [lookupRef, if_neg ham]
        exact ih

theorem setTarget_map_fst (s : RefStore) (n : String) (t : Target) :
    (setTarget s n t).map Prod.fst = s.map Prod.fst := by
  induction s with
  | nil => rfl
  | cons p rest ih =>
    obtain ⟨a, b⟩ := p
    simp only [setTarget, List.map_cons]
    by_cases ha : a = n
    · rw [if_pos ha, ha]
      simpa [setTarget] using ih
    · rw [if_neg ha]
      simpa [setTarget] using ih

theorem lookupRef_isSome_iff_mem {s : RefStore} {m : String} :
    (lookupRef s m).isSome ↔ m ∈ s.map Prod.fst := by
  induction s with
  | nil => simp [lookupRef]
  | cons p rest ih =>
    obtain ⟨a, b⟩ := p
    by_cases ha : a = m
    · simp [lookupRef, if_pos ha, ha]
    · have hma : ¬ m = a := fun hc => ha hc.symm
      simp [lookupRef, if_neg ha, ih, hma]

theorem lookupRef_none_of_append {s l : RefStore} {m : String}
    (h : lookupRef (s ++ l) m = none) : lookupRef s m = none := by
  cases hs : lookupRef s m with
  | none => rfl
  | some t => rw [lookupRef_append_of_isSome hs l] at h; exact absurd h (by simp)

/-! ### Reference names: staging namespace and derived published names -/

/-- `self.fetch_ref_prefix = 'refs/git-backup/origin/'`: the private
staging namespace under which fetched remote references are stored. -/
def stagingNs : String := "refs/git-backup/origin/"

/-- `LocalBackup._is_remote_ref`: does the name start with the staging
namespace? -/
def is_remote_ref (name : String) : Bool :=
  stagingNs.data.isPrefixOf name.data

/-- `ref_name.replace(self.fetch_ref_prefix, 'refs/', 1)` as applied by
`update_refs`: every name it is applied to starts with the staging
namespace (they pass the `_is_remote_ref` filter), so replacing the first
occurrence replaces that leading occurrence. -/
def dest_name_of (name : String) : String :=
  String.mk ("refs/".data ++ name.data.drop stagingNs.data.length)

/-- The iteration of `update_refs`:
`filter(self._is_remote_ref, self.cloned_repo.references)`, a snapshot of
the staging reference names of the store. -/
def staging_refs (store : RefStore) : List String :=
  (store.map Prod.fst).filter is_remote_ref

theorem staging_refs_mem {store : RefStore} {n : String}
    (h : n ∈ staging_refs store) : is_remote_ref n = true ∧ n ∈ store.map Prod.fst := by
  unfold staging_refs at h
  exact ⟨List.of_mem_filter h, List.mem_of_mem_filter h⟩

/-- On names that start with the staging namespace, `dest_name_of` is
injective: the dropped tail determines the original name. -/
theorem dest_name_of_injective {n m : String}
    (hn : is_remote_ref n = true) (hm : is_remote_ref m = true)
    (h : dest_name_of n = dest_name_of m) : n = m := by
  unfold is_remote_ref at hn hm
  rw [List.isPrefixOf_iff_prefix] at hn hm
  unfold dest_name_of at h
  have hdrop : n.data.drop stagingNs.data.length = m.data.drop stagingNs.data.length := by
    have := congrArg String.data h
    simpa using List.append_cancel_left this
  obtain ⟨tn, htn⟩ := hn
  obtain ⟨tm, htm⟩ := hm
  apply String.ext
  rw [← htn, ← htm]
  rw [← htn] at hdrop
  rw [← htm] at hdrop
  simpa using hdrop

/-- A name that starts with the staging namespace keeps a record of it:
appending an underscore-headed suffix to a name *not* in the staging
namespace cannot produce a name in the staging namespace, because the
staging namespace contains no underscore. -/
theorem is_remote_ref_of_append {d rest : List Char}
    (h : is_remote_ref (String.mk (d ++ '_' :: rest)) = true) :
    is_remote_ref (String.mk d) = true := by
  unfold is_remote_ref at h ⊢
  rw [List.isPrefixOf_iff_prefix] at h ⊢
  rcases List.prefix_or_prefix_of_prefix h (List.prefix_append d ('_' :: rest)) with hp | hp
  · exact hp
  · obtain ⟨u, hu⟩ := hp
    rcases u with _ | ⟨c, u⟩
    · simp only [List.append_nil] at hu
      exact hu ▸ List.prefix_rfl
    · exfalso
      have h2 : d ++ c :: u <+: d ++ '_' :: rest := by rw [hu]; exact h
      rw [List.prefix_append_right_inj] at h2
      obtain ⟨w, hw⟩ := h2
      have hc : c = '_' := by
        have := hw
        simp only [List.cons_append] at this
        exact (List.cons.injEq _ _ _ _ ▸ this).1
      have hmem : ('_' : Char) ∈ stagingNs.data := by
        rw [← hu, ← hc]
        exact List.mem_append_right d (List.mem_cons_self c u)
      revert hmem
      decide

/-! ### Decimal suffixes: `'_{:d}'.format(i)` -/

/-- One decimal digit as a character. -/
def decDigit (d : Nat) : Char :=
  match d with
  | 0 => '0'
  | 1 => '1'
  | 2 => '2'
  | 3 => '3'
  | 4 => '4'
  | 5 => '5'
  | 6 => '6'
  | 7 => '7'
  | 8 => '8'
  | 9 => '9'
  | _ => '*'

/-- Little-endian decimal digits of `n` (empty for `0`), with fuel. -/
def decReprAux : Nat → Nat → List Char
  | 0, _ => []
  | fuel + 1, n => if n = 0 then [] else decDigit (n % 10) :: decReprAux fuel (n / 10)

/-- The decimal representation of a natural number, as produced by
Python's `'{:d}'.format`. -/
def decRepr (n : Nat) : String :=
  if n = 0 then "0" else String.mk (decReprAux n n).reverse

/-- Value of a little-endian digit-character list. -/
def decVal : List Char → Nat
  | [] => 0
  | c :: cs => c.toNat - 48 + 10 * decVal cs

theorem decVal_decDigit {d : Nat} (h : d < 10) : (decDigit d).toNat - 48 = d := by
  interval_cases d <;> decide

theorem decVal_decReprAux {fuel n : Nat} (h : n ≤ fuel) :
    decVal (decReprAux fuel n) = n := by
  induction fuel generalizing n with
  | zero =>
    have hn : n = 0 := Nat.le_zero.mp h
    subst hn
    simp [decReprAux, decVal]
  | succ fuel ih =>
    by_cases hn : n = 0
    · simp [decReprAux, hn, decVal]
    · have hlt : n / 10 ≤ fuel := by
        have := Nat.div_lt_self (Nat.pos_of_ne_zero hn) (by norm_num : (1:Nat) < 10)
        omega
      simp only [decReprAux, if_neg hn, decVal]
      rw [decVal_decDigit (Nat.mod_lt n (by norm_num)), ih hlt]
      omega

theorem decRepr_injective {a b : Nat} (ha : 0 < a) (hb : 0 < b)
    (h : decRepr a = decRepr b) : a = b := by
  unfold decRepr at h
  rw [if_neg (Nat.pos_iff_ne_zero.mp ha), if_neg (Nat.pos_iff_ne_zero.mp hb)] at h
  have hd : (decReprAux a a).reverse = (decReprAux b b).reverse := congrArg String.data h
  have hd2 : decReprAux a a = decReprAux b b := List.reverse_injective hd
  have := decVal_decReprAux (Nat.le_refl a)
  rw [hd2, decVal_decReprAux (Nat.le_refl b)] at this
  exact this.symm

/-! ### `LocalBackup._backup_ref_name` -/

/-- The candidate sequence of `_backup_ref_name`: the base name
`<ref_name>_replaced_<timestr>` first, then the same with `_1`, `_2`, …
appended (`itertools.chain([backup_ref_name], alternate_names)`). -/
def backup_candidate (base : String) : Nat → String
  | 0 => base
  | k + 1 => base ++ "_" ++ decRepr (k + 1)

/-- The search loop of `_backup_ref_name`: try candidates `i`, `i+1`, …
returning the first whose `lookup_reference` raises `KeyError` (is
absent).  The source iterates an unbounded generator; here the search
carries fuel, and `find_backup_name_success` shows fuel
`store.length + 1` always suffices, so the bounded search returns exactly
the first unused candidate of the unbounded one. -/
def find_backup_name (store : RefStore) (base : String) : Nat → Nat → Option String
  | 0, _ => none
  | fuel + 1, i =>
    match lookupRef store (backup_candidate base i) with
    | none => some (backup_candidate base i)
    | some _ => find_backup_name store base fuel (i + 1)

/-- `LocalBackup._backup_ref_name(ref_name)`, with the formatted UTC
timestamp supplied as the parameter `timestr`.  The base candidate is
`"{}_replaced_{}".format(ref_name, timestr)`. -/
def backup_ref_name (store : RefStore) (ref_name timestr : String) : String :=
  (find_backup_name store (ref_name ++ "_replaced_" ++ timestr)
      (store.length + 1) 0).getD (ref_name ++ "_replaced_" ++ timestr)

theorem backup_candidate_injective {base : String} {i j : Nat}
    (h : backup_candidate base i = backup_candidate base j) : i = j := by
  match i, j with
  | 0, 0 => rfl
  | 0, k + 1 =>
    exfalso
    have := congrArg (fun s => s.data.length) h
    simp [backup_candidate] at this
  | k + 1, 0 =>
    exfalso
    have := congrArg (fun s => s.data.length) h
    simp [backup_candidate] at this
  | k + 1, l + 1 =>
    have hdata := congrArg String.data h
    simp only [backup_candidate, String.data_append, List.append_assoc] at hdata
    have h2 := List.append_cancel_left hdata
    have h3 := List.append_cancel_left h2
    have : decRepr (k + 1) = decRepr (l + 1) := String.ext h3
    have := decRepr_injective (Nat.succ_pos k) (Nat.succ_pos l) this
    omega

theorem find_backup_name_none {store : RefStore} {base : String} :
    ∀ {fuel i : Nat}, find_backup_name store base fuel i = none →
      ∀ k < fuel, (lookupRef store (backup_candidate base (i + k))).isSome := by
  intro fuel
  induction fuel with
  | zero => intro i _ k hk; omega
  | succ fuel ih =>
    intro i h k hk
    unfold find_backup_name at h
    cases hl : lookupRef store (backup_candidate base i) with
    | none => rw [hl] at h; exact absurd h (by simp)
    | some t =>
      rw [hl] at h
      match k with
      | 0 => simpa using congrArg Option.isSome hl
      | k + 1 =>
        have := ih h k (by omega)
        have harr : i + 1 + k = i + (k + 1) := by omega
        rwa [harr] at this

theorem find_backup_name_some {store : RefStore} {base : String} :
    ∀ {fuel i : Nat} {c : String}, find_backup_name store base fuel i = some c →
      ∃ k, c = backup_candidate base (i + k) ∧
        lookupRef store (backup_candidate base (i + k)) = none ∧
        ∀ j < k, (lookupRef store (backup_candidate base (i + j))).isSome := by
  intro fuel
  induction fuel with
  | zero => intro i c h; simp [find_backup_name] at h
  | succ fuel ih =>
    intro i c h
    unfold find_backup_name at h
    cases hl : lookupRef store (backup_candidate base i) with
    | none =>
      rw [hl] at h
      refine ⟨0, ?_, by simpa using hl, by omega⟩
      simpa using h.symm
    | some t =>
      rw [hl] at h
      obtain ⟨k, hc, hnone, hall⟩ := ih h
      refine ⟨k + 1, by rwa [show i + (k + 1) = i + 1 + k by omega], by
        rwa [show i + (k + 1) = i + 1 + k by omega], ?_⟩
      intro j hj
      match j with
      | 0 => simpa using congrArg Option.isSome hl
      | j + 1 =>
        have := hall j (by omega)
        rwa [show i + 1 + j = i + (j + 1) by omega] at this

/-- Pigeonhole: `store.length + 1` pairwise-distinct candidates cannot all
be names of references of `store`, so the bounded search succeeds. -/
theorem find_backup_name_success (store : RefStore) (base : String) :
    find_backup_name store base (store.length + 1) 0 ≠ none := by
  intro h
  have hall := find_backup_name_none h
  set L := (List.range (store.length + 1)).map (backup_candidate base) with hL
  have hnodup : L.Nodup := by
    refine List.Nodup.map_on ?_ (List.nodup_range _)
    intro i _ j _ hij
    exact backup_candidate_injective hij
  have hsub : L ⊆ store.map Prod.fst := by
    intro x hx
    rw [hL, List.mem_map] at hx
    obtain ⟨k, hk, rfl⟩ := hx
    rw [List.mem_range] at hk
    have := hall k hk
    rw [← lookupRef_isSome_iff_mem]
    simpa using this
  have h1 : L.toFinset.card = store.length + 1 := by
    rw [List.toFinset_card_of_nodup hnodup, hL]
    simp
  have h2 : L.toFinset ⊆ (store.map Prod.fst).toFinset := by
    intro x hx
    rw [List.mem_toFinset] at hx ⊢
    exact hsub hx
  have h3 := Finset.card_le_card h2
  have h4 := List.toFinset_card_le (store.map Prod.fst)
  simp only [List.length_map] at h4
  omega

/-- `_backup_ref_name` returns the first unused candidate. -/
theorem backup_ref_name_spec (store : RefStore) (ref_name timestr : String) :
    ∃ k, backup_ref_name store ref_name timestr
          = backup_candidate (ref_name ++ "_replaced_" ++ timestr) k ∧
      lookupRef store (backup_candidate (ref_name ++ "_replaced_" ++ timestr) k) = none ∧
      ∀ j < k, (lookupRef store
          (backup_candidate (ref_name ++ "_replaced_" ++ timestr) j)).isSome := by
  unfold backup_ref_name
  cases hf : find_backup_name store (ref_name ++ "_replaced_" ++ timestr)
      (store.length + 1) 0 with
  | none => exact absurd hf (find_backup_name_success store _)
  | some c =>
    obtain ⟨k, hc, hnone, hall⟩ := find_backup_name_some hf
    rw [Nat.zero_add] at hc hnone
    refine ⟨k, ?_, hnone, fun j hj => by have := hall j hj; rwa [Nat.zero_add] at this⟩
    simp only [Option.getD_some]
    exact hc

/-- The name `_backup_ref_name` returns is unused in the store. -/
theorem backup_ref_name_unused (store : RefStore) (ref_name timestr : String) :
    lookupRef store (backup_ref_name store ref_name timestr) = none := by
  obtain ⟨k, hk, hnone, _⟩ := backup_ref_name_spec store ref_name timestr
  rw [hk]
  exact hnone

/-- Every candidate (hence every backup name) extends the original name
with an underscore-headed suffix. -/
theorem backup_candidate_data (ref_name timestr : String) (k : Nat) :
    ∃ rest, (backup_candidate (ref_name ++ "_replaced_" ++ timestr) k).data
      = ref_name.data ++ '_' :: rest := by
  match k with
  | 0 =>
    refine ⟨("replaced_" ++ timestr).data, ?_⟩
    simp [backup_candidate]
  | k + 1 =>
    refine ⟨("replaced_" ++ timestr ++ "_" ++ decRepr (k + 1)).data, ?_⟩
    simp [backup_candidate]

/-- A backup name computed from a non-staging name is itself non-staging. -/
theorem backup_ref_name_not_remote {store : RefStore} {ref_name timestr : String}
    (h : is_remote_ref ref_name = false) :
    is_remote_ref (backup_ref_name store ref_name timestr) = false := by
  obtain ⟨k, hk, _, _⟩ := backup_ref_name_spec store ref_name timestr
  rw [hk]
  obtain ⟨rest, hrest⟩ := backup_candidate_data ref_name timestr k
  by_contra hcon
  rw [Bool.not_eq_false] at hcon
  have hmk : is_remote_ref (String.mk (ref_name.data ++ '_' :: rest)) = true := by
    rw [← hrest]
    exact hcon
  have h2 : is_remote_ref ref_name = true := is_remote_ref_of_append hmk
  rw [h] at h2
  exact absurd h2 (by simp)

/-! ### `LocalBackup._update_one_ref` and `LocalBackup.update_refs` -/

/-- The non-fast-forward callback
`nonff_callback(ref, dest, dest_backup_name)`.  The observable content of
the two `pygit2.Reference` arguments is their name and target, so the
callback is modelled as a function of
(remote name, remote target, local name, local target, proposed backup
name). -/
def NonffCallback : Type :=
  String → Target → String → Target → String → Bool

/-- What `_update_one_ref` did, including the log messages it passed to
`set_target` and the warnings/decisions taken.  `refNotFound` models the
`KeyError` of the first `lookup_reference` (never reached from
`update_refs`, whose names come from the reference list itself). -/
inductive Outcome where
  | refNotFound
  | created (dest : String) (t : Target)
  | noop
  | fastForwarded (msg : String)
  | divergedWarned (backupName : String) (oldTarget : Target) (msg : String)
  | divergedAccepted (backupName : String) (oldTarget : Target) (msg : String)
  | divergedSkipped
deriving DecidableEq

/-- `'git-backup: Fast-forward {!r} to {!r}'.format(dest.name, ref.name)`
(Python `repr` of a plain reference name wraps it in single quotes,
written here as the escape `\x27`). -/
def ff_msg (destName refName : String) : String :=
  "git-backup: Fast-forward \x27" ++ destName ++ "\x27 to \x27" ++ refName ++ "\x27"

/-- `'git-backup: Replace {!r} with remote {!r}, backup old ref as
{!r}'.format(dest.name, ref.name, dest_backup_name)`. -/
def replace_msg (destName refName backupName : String) : String :=
  "git-backup: Replace \x27" ++ destName ++ "\x27 with remote \x27" ++ refName
    ++ "\x27, backup old ref as \x27" ++ backupName ++ "\x27"

/-- The Case-C guard:
`both_oids and self.cloned_repo.descendant_of(ref.target, dest.target)`,
with `descendant_of` supplied as the ancestry oracle `desc`
(`desc candidate ancestor`). -/
def bothOidsDesc (desc : String → String → Bool) : Target → Target → Bool
  | Target.oid a, Target.oid b => desc a b
  | _, _ => false

/-- `LocalBackup._update_one_ref(ref_name, dest_name, nonff_callback)`.
`timestr` is the formatted UTC timestamp `_backup_ref_name` would read
from the clock.  Returns the new store and the outcome taken.  Faithful
to the source's control flow; in particular, when no callback is supplied
the diverged branch logs a warning and then still falls through to the
backup-and-overwrite code (there is no early return after the warning). -/
def update_one_ref (desc : String → String → Bool) (timestr : String)
    (nonff_callback : Option NonffCallback)
    (store : RefStore) (ref_name dest_name : String) : RefStore × Outcome :=
  match lookupRef store ref_name with
  | none => (store, Outcome.refNotFound)
  | some refT =>
    match lookupRef store dest_name with
    | none => (createRef store dest_name refT, Outcome.created dest_name refT)
    | some destT =>
      if refT = destT then
        (store, Outcome.noop)
      else if bothOidsDesc desc refT destT then
        (setTarget store dest_name refT,
         Outcome.fastForwarded (ff_msg dest_name ref_name))
      else
        match nonff_callback with
        | none =>
          (setTarget (createRef store (backup_ref_name store dest_name timestr) destT)
             dest_name refT,
           Outcome.divergedWarned (backup_ref_name store dest_name timestr) destT
             (replace_msg dest_name ref_name (backup_ref_name store dest_name timestr)))
        | some cb =>
          if cb ref_name refT dest_name destT (backup_ref_name store dest_name timestr) then
            (setTarget (createRef store (backup_ref_name store dest_name timestr) destT)
               dest_name refT,
             Outcome.divergedAccepted (backup_ref_name store dest_name timestr) destT
               (replace_msg dest_name ref_name (backup_ref_name store dest_name timestr)))
          else
            (store, Outcome.divergedSkipped)

/-- The loop body of `update_refs` over an explicit list of staging
reference names, also collecting the outcome of each reference. -/
def update_refs_from (desc : String → String → Bool) (timestr : String)
    (nonff_callback : Option NonffCallback) :
    List String → RefStore → RefStore × List (String × Outcome)
  | [], store => (store, [])
  | n :: rest, store =>
    let r := update_one_ref desc timestr nonff_callback store n (dest_name_of n)
    let r2 := update_refs_from desc timestr nonff_callback rest r.1
    (r2.1, (n, r.2) :: r2.2)

/-- `LocalBackup.update_refs(nonff_callback)`: for every reference name
that passes `_is_remote_ref`, update the corresponding published
reference (the name with the staging namespace replaced by `refs/`). -/
def update_refs (desc : String → String → Bool) (timestr : String)
    (nonff_callback : Option NonffCallback) (store : RefStore) :
    RefStore × List (String × Outcome) :=
  update_refs_from desc timestr nonff_callback (staging_refs store) store

/-! ### Branch lemmas for `_update_one_ref` -/

section Branches

variable {desc : String → String → Bool} {timestr : String}
variable {cb0 : Option NonffCallback} {store : RefStore}
variable {ref_name dest_name : String} {t td : Target}

theorem uor_notfound (hr : lookupRef store ref_name = none) :
    update_one_ref desc timestr cb0 store ref_name dest_name
      = (store, Outcome.refNotFound) := by
  simp [update_one_ref, hr]

theorem uor_created (hr : lookupRef store ref_name = some t)
    (hd : lookupRef store dest_name = none) :
    update_one_ref desc timestr cb0 store ref_name dest_name
      = (createRef store dest_name t, Outcome.created dest_name t) := by
  simp [update_one_ref, hr, hd]

theorem uor_noop (hr : lookupRef store ref_name = some t)
    (hd : lookupRef store dest_name = some t) :
    update_one_ref desc timestr cb0 store ref_name dest_name
      = (store, Outcome.noop) := by
  simp [update_one_ref, hr, hd]

theorem uor_ff (hr : lookupRef store ref_name = some t)
    (hd : lookupRef store dest_name = some td)
    (hne : t ≠ td) (hff : bothOidsDesc desc t td = true) :
    update_one_ref desc timestr cb0 store ref_name dest_name
      = (setTarget store dest_name t,
         Outcome.fastForwarded (ff_msg dest_name ref_name)) := by
  simp [update_one_ref, hr, hd, hne, hff]

theorem uor_warned (hr : lookupRef store ref_name = some t)
    (hd : lookupRef store dest_name = some td)
    (hne : t ≠ td) (hff : bothOidsDesc desc t td = false) :
    update_one_ref desc timestr none store ref_name dest_name
      = (setTarget (createRef store (backup_ref_name store dest_name timestr) td)
           dest_name t,
         Outcome.divergedWarned (backup_ref_name store dest_name timestr) td
           (replace_msg dest_name ref_name (backup_ref_name store dest_name timestr))) := by
  simp [update_one_ref, hr, hd, hne, hff]

theorem uor_accepted {cb : NonffCallback} (hr : lookupRef store ref_name = some t)
    (hd : lookupRef store dest_name = some td)
    (hne : t ≠ td) (hff : bothOidsDesc desc t td = false)
    (hcb : cb ref_name t dest_name td (backup_ref_name store dest_name timestr) = true) :
    update_one_ref desc timestr (some cb) store ref_name dest_name
      = (setTarget (createRef store (backup_ref_name store dest_name timestr) td)
           dest_name t,
         Outcome.divergedAccepted (backup_ref_name store dest_name timestr) td
           (replace_msg dest_name ref_name (backup_ref_name store dest_name timestr))) := by
  simp [update_one_ref, hr, hd, hne, hff, hcb]

theorem uor_skipped {cb : NonffCallback} (hr : lookupRef store ref_name = some t)
    (hd : lookupRef store dest_name = some td)
    (hne : t ≠ td) (hff : bothOidsDesc desc t td = false)
    (hcb : cb ref_name t dest_name td (backup_ref_name store dest_name timestr) = false) :
    update_one_ref desc timestr (some cb) store ref_name dest_name
      = (store, Outcome.divergedSkipped) := by
  simp [update_one_ref, hr, hd, hne, hff, hcb]

/-! ### Frame lemmas for `_update_one_ref` -/

theorem lookupRef_createRef_ne {s : RefStore} {a m : String} (u : Target)
    (h : a ≠ m) : lookupRef (createRef s a u) m = lookupRef s m :=
  lookupRef_append_of_ne u h

theorem lookupRef_createRef_of_isSome {s : RefStore} {m : String} {t : Target}
    (h : lookupRef s m = some t) (a : String) (u : Target) :
    lookupRef (createRef s a u) m = some t :=
  lookupRef_append_of_isSome h _

/-- Updating one reference never touches another reference that exists
and is not the update's destination. -/
theorem uor_preserve {m : String} (hm : lookupRef store m = some t)
    (hne : dest_name ≠ m) :
    lookupRef (update_one_ref desc timestr cb0 store ref_name dest_name).1 m
      = some t := by
  cases hr : lookupRef store ref_name with
  | none => rw [uor_notfound hr]; exact hm
  | some refT =>
    cases hd : lookupRef store dest_name with
    | none =>
      rw [uor_created hr hd]
      exact lookupRef_createRef_of_isSome hm _ _
    | some destT =>
      by_cases heq : refT = destT
      · subst heq
        rw [uor_noop hr hd]
        exact hm
      · by_cases hff : bothOidsDesc desc refT destT = true
        · rw [uor_ff hr hd heq hff]
          rw [lookupRef_setTarget_ne _ (fun hc => hne hc.symm)]
          exact hm
        · rw [Bool.not_eq_true] at hff
          have hkeep : lookupRef (createRef store
              (backup_ref_name store dest_name timestr) destT) m = some t :=
            lookupRef_createRef_of_isSome hm _ _
          cases cb0 with
          | none =>
            rw [uor_warned hr hd heq hff]
            rw [lookupRef_setTarget_ne _ (fun hc => hne hc.symm)]
            exact hkeep
          | some cb =>
            by_cases hcb : cb ref_name refT dest_name destT
                (backup_ref_name store dest_name timestr) = true
            · rw [uor_accepted hr hd heq hff hcb]
              rw [lookupRef_setTarget_ne _ (fun hc => hne hc.symm)]
              exact hkeep
            · rw [Bool.not_eq_true] at hcb
              rw [uor_skipped hr hd heq hff hcb]
              exact hm

/-- Updating one reference never deletes a reference. -/
theorem uor_isSome_mono {m : String}
    (hm : (lookupRef store m).isSome = true) :
    (lookupRef (update_one_ref desc timestr cb0 store ref_name dest_name).1 m).isSome
      = true := by
  obtain ⟨u, hu⟩ := Option.isSome_iff_exists.mp hm
  by_cases hdm : dest_name = m
  · subst hdm
    cases hr : lookupRef store ref_name with
    | none => rw [uor_notfound hr]; exact hm
    | some refT =>
      by_cases heq : refT = u
      · subst heq
        rw [uor_noop hr hu]
        exact hm
      · by_cases hff : bothOidsDesc desc refT u = true
        · rw [uor_ff hr hu heq hff, lookupRef_setTarget_self hu refT]
          rfl
        · rw [Bool.not_eq_true] at hff
          have hkeep : lookupRef (createRef store
              (backup_ref_name store dest_name timestr) u) dest_name = some u :=
            lookupRef_createRef_of_isSome hu _ _
          cases cb0 with
          | none =>
            rw [uor_warned hr hu heq hff, lookupRef_setTarget_self hkeep refT]
            rfl
          | some cb =>
            by_cases hcb : cb ref_name refT dest_name u
                (backup_ref_name store dest_name timestr) = true
            · rw [uor_accepted hr hu heq hff hcb, lookupRef_setTarget_self hkeep refT]
              rfl
            · rw [Bool.not_eq_true] at hcb
              rw [uor_skipped hr hu heq hff hcb]
              exact hm
  · rw [uor_preserve hu hdm]
    rfl

/-- With a destination outside the staging namespace, updating one
reference leaves every staging-namespace lookup unchanged (everything it
creates or retargets is outside the staging namespace). -/
theorem uor_staging_preserve (hdn : is_remote_ref dest_name = false)
    {m : String} (hm : is_remote_ref m = true) :
    lookupRef (update_one_ref desc timestr cb0 store ref_name dest_name).1 m
      = lookupRef store m := by
  have hdm : dest_name ≠ m := fun hc => by rw [hc, hm] at hdn; exact Bool.noConfusion hdn
  have hmd : m ≠ dest_name := fun hc => hdm hc.symm
  have hbm : backup_ref_name store dest_name timestr ≠ m := fun hc => by
    have := @backup_ref_name_not_remote store dest_name timestr hdn
    rw [hc, hm] at this
    exact Bool.noConfusion this
  cases hr : lookupRef store ref_name with
  | none => rw [uor_notfound hr]
  | some refT =>
    cases hd : lookupRef store dest_name with
    | none =>
      rw [uor_created hr hd]
      exact lookupRef_createRef_ne _ hdm
    | some destT =>
      by_cases heq : refT = destT
      · subst heq
        rw [uor_noop hr hd]
      · by_cases hff : bothOidsDesc desc refT destT = true
        · rw [uor_ff hr hd heq hff]
          exact lookupRef_setTarget_ne _ hmd
        · rw [Bool.not_eq_true] at hff
          cases cb0 with
          | none =>
            rw [uor_warned hr hd heq hff, lookupRef_setTarget_ne _ hmd]
            exact lookupRef_createRef_ne _ hbm
          | some cb =>
            by_cases hcb : cb ref_name refT dest_name destT
                (backup_ref_name store dest_name timestr) = true
            · rw [uor_accepted hr hd heq hff hcb, lookupRef_setTarget_ne _ hmd]
              exact lookupRef_createRef_ne _ hbm
            · rw [Bool.not_eq_true] at hcb
              rw [uor_skipped hr hd heq hff hcb]

/-- The reference-name list grows only by names outside the staging
namespace when the destination is outside the staging namespace. -/
theorem uor_map_fst (hdn : is_remote_ref dest_name = false) :
    ∃ new, (update_one_ref desc timestr cb0 store ref_name dest_name).1.map Prod.fst
        = store.map Prod.fst ++ new ∧ ∀ a ∈ new, is_remote_ref a = false := by
  cases hr : lookupRef store ref_name with
  | none => exact ⟨[], by rw [uor_notfound hr]; simp, by simp⟩
  | some refT =>
    cases hd : lookupRef store dest_name with
    | none =>
      refine ⟨[dest_name], ?_, by simpa using hdn⟩
      rw [uor_created hr hd]
      simp [createRef]
    | some destT =>
      by_cases heq : refT = destT
      · subst heq
        exact ⟨[], by rw [uor_noop hr hd]; simp, by simp⟩
      · by_cases hff : bothOidsDesc desc refT destT = true
        · refine ⟨[], ?_, by simp⟩
          rw [uor_ff hr hd heq hff]
          simp [setTarget_map_fst]
        · rw [Bool.not_eq_true] at hff
          cases cb0 with
          | none =>
            refine ⟨[backup_ref_name store dest_name timestr], ?_, by
              simpa using backup_ref_name_not_remote hdn⟩
            rw [uor_warned hr hd heq hff, setTarget_map_fst]
            simp [createRef]
          | some cb =>
            by_cases hcb : cb ref_name refT dest_name destT
                (backup_ref_name store dest_name timestr) = true
            · refine ⟨[backup_ref_name store dest_name timestr], ?_, by
                simpa using backup_ref_name_not_remote hdn⟩
              rw [uor_accepted hr hd heq hff hcb, setTarget_map_fst]
              simp [createRef]
            · rw [Bool.not_eq_true] at hcb
              exact ⟨[], by rw [uor_skipped hr hd heq hff hcb]; simp, by simp⟩

end Branches

/-! ### Frame lemmas for `update_refs` -/

section Fold

variable {desc : String → String → Bool} {timestr : String}
variable {cb0 : Option NonffCallback}

theorem urf_preserve : ∀ {names : List String} {store : RefStore} {m : String}
    {t : Target}, lookupRef store m = some t →
    (∀ n ∈ names, dest_name_of n ≠ m) →
    lookupRef (update_refs_from desc timestr cb0 names store).1 m = some t := by
  intro names
  induction names with
  | nil => intro store m t hm _; exact hm
  | cons n rest ih =>
    intro store m t hm hall
    unfold update_refs_from
    exact ih (uor_preserve hm (hall n (by simp)))
      (fun x hx => hall x (List.mem_cons_of_mem n hx))

theorem urf_isSome_mono : ∀ {names : List String} {store : RefStore} {m : String},
    (lookupRef store m).isSome = true →
    (lookupRef (update_refs_from desc timestr cb0 names store).1 m).isSome = true := by
  intro names
  induction names with
  | nil => intro store m hm; exact hm
  | cons n rest ih =>
    intro store m hm
    unfold update_refs_from
    exact ih (uor_isSome_mono hm)

theorem urf_staging_preserve : ∀ {names : List String} {store : RefStore},
    (∀ n ∈ names, is_remote_ref (dest_name_of n) = false) →
    ∀ {m : String}, is_remote_ref m = true →
    lookupRef (update_refs_from desc timestr cb0 names store).1 m = lookupRef store m := by
  intro names
  induction names with
  | nil => intro store _ m _; rfl
  | cons n rest ih =>
    intro store hall m hm
    unfold update_refs_from
    rw [ih (fun x hx => hall x (List.mem_cons_of_mem n hx)) hm]
    exact uor_staging_preserve (hall n (by simp)) hm

theorem urf_map_fst : ∀ {names : List String} {store : RefStore},
    (∀ n ∈ names, is_remote_ref (dest_name_of n) = false) →
    ∃ new, (update_refs_from desc timestr cb0 names store).1.map Prod.fst
        = store.map Prod.fst ++ new ∧ ∀ a ∈ new, is_remote_ref a = false := by
  intro names
  induction names with
  | nil => intro store _; exact ⟨[], by simp [update_refs_from], by simp⟩
  | cons n rest ih =>
    intro store hall
    unfold update_refs_from
    obtain ⟨new1, h1, hn1⟩ :=
      @uor_map_fst desc timestr cb0 store n (dest_name_of n) (hall n (by simp))
    obtain ⟨new2, h2, hn2⟩ :=
      @ih (update_one_ref desc timestr cb0 store n (dest_name_of n)).1
        (fun x hx => hall x (List.mem_cons_of_mem n hx))
    refine ⟨new1 ++ new2, ?_, ?_⟩
    · rw [h2, h1, List.append_assoc]
    · intro a ha
      rcases List.mem_append.mp ha with h | h
      · exact hn1 a h
      · exact hn2 a h

/-- The staging-reference list is unchanged by a pass whose destinations
are all outside the staging namespace. -/
theorem urf_staging_refs (names : List String) (store : RefStore)
    (hall : ∀ n ∈ names, is_remote_ref (dest_name_of n) = false) :
    staging_refs (update_refs_from desc timestr cb0 names store).1
      = staging_refs store := by
  obtain ⟨new, hmap, hnew⟩ := @urf_map_fst desc timestr cb0 names store hall
  unfold staging_refs
  rw [hmap, List.filter_append]
  have : new.filter is_remote_ref = [] := by
    rw [List.filter_eq_nil_iff]
    intro a ha
    rw [hnew a ha]
    simp
  rw [this, List.append_nil]

end Fold

/-! ### Idempotence machinery -/

/-- The outcome a reference gets on a second reconciliation pass, as a
function of its first-pass outcome: everything touched or already equal
is a no-op (Case B), a policy-skipped reference is skipped again. -/
def pass2_outcome : Outcome → Outcome
  | Outcome.divergedSkipped => Outcome.divergedSkipped
  | Outcome.refNotFound => Outcome.refNotFound
  | _ => Outcome.noop

/-- The conflict policy's decision does not depend on the proposed backup
name (trivially true when no policy is supplied). -/
def PolicyNameIndep : Option NonffCallback → Prop
  | none => True
  | some cb => ∀ rn rt dn dt b b2, cb rn rt dn dt b = cb rn rt dn dt b2

/-- The state one staging reference is left in after a pass, relative to
its first-pass outcome: either its published reference now carries
exactly the staging target, or the pair is diverged and the policy
(universally over proposed names) declines. -/
def SettledP (desc : String → String → Bool) (cb0 : Option NonffCallback)
    (n : String) (o : Outcome) (s : RefStore) : Prop :=
  match o with
  | Outcome.refNotFound => False
  | Outcome.divergedSkipped =>
      ∃ t td, lookupRef s n = some t ∧ lookupRef s (dest_name_of n) = some td ∧
        t ≠ td ∧ bothOidsDesc desc t td = false ∧
        ∃ cb, cb0 = some cb ∧ ∀ b, cb n t (dest_name_of n) td b = false
  | _ => ∃ t, lookupRef s n = some t ∧ lookupRef s (dest_name_of n) = some t

theorem pass1_settled (desc : String → String → Bool) (timestr : String)
    (cb0 : Option NonffCallback) (h2 : PolicyNameIndep cb0) :
    ∀ (ns : List String) (store : RefStore),
    (∀ n ∈ ns, is_remote_ref n = true) →
    (∀ n ∈ ns, is_remote_ref (dest_name_of n) = false) →
    (∀ n ∈ ns, (lookupRef store n).isSome = true) →
    ns.Nodup →
    List.Forall₂ (fun n p => p.1 = n ∧ SettledP desc cb0 n p.2
        (update_refs_from desc timestr cb0 ns store).1)
      ns (update_refs_from desc timestr cb0 ns store).2 := by
  intro ns
  induction ns with
  | nil => intro store _ _ _ _; exact List.Forall₂.nil
  | cons n rest ih =>
    intro store hrem hdst hsome hnodup
    have hn_rem : is_remote_ref n = true := hrem n (by simp)
    have hn_dst : is_remote_ref (dest_name_of n) = false := hdst n (by simp)
    have hrest_rem : ∀ x ∈ rest, is_remote_ref x = true :=
      fun x hx => hrem x (List.mem_cons_of_mem n hx)
    have hrest_dst : ∀ x ∈ rest, is_remote_ref (dest_name_of x) = false :=
      fun x hx => hdst x (List.mem_cons_of_mem n hx)
    have hn_notin : n ∉ rest := (List.nodup_cons.mp hnodup).1
    have hrest_nodup : rest.Nodup := (List.nodup_cons.mp hnodup).2
    -- the destination of `n` is no other staging reference's destination
    have hd_frame : ∀ x ∈ rest, dest_name_of x ≠ dest_name_of n := by
      intro x hx hc
      exact hn_notin (dest_name_of_injective (hrest_rem x hx) hn_rem hc ▸ hx)
    obtain ⟨u, hu⟩ := Option.isSome_iff_exists.mp (hsome n (by simp))
    -- one step: describe the store after processing `n`
    have hstep : ∀ s1 : RefStore,
        s1 = (update_one_ref desc timestr cb0 store n (dest_name_of n)).1 →
        (∀ x ∈ rest, (lookupRef s1 x).isSome = true) := by
      intro s1 hs1 x hx
      rw [hs1, uor_staging_preserve hn_dst (hrest_rem x hx)]
      exact hsome x (List.mem_cons_of_mem n hx)
    have hrec := ih (update_one_ref desc timestr cb0 store n (dest_name_of n)).1
      hrest_rem hrest_dst (hstep _ rfl) hrest_nodup
    -- the final store of the whole pass
    have hSrw : (update_refs_from desc timestr cb0 (n :: rest) store).1
        = (update_refs_from desc timestr cb0 rest
            (update_one_ref desc timestr cb0 store n (dest_name_of n)).1).1 := rfl
    have hOrw : (update_refs_from desc timestr cb0 (n :: rest) store).2
        = (n, (update_one_ref desc timestr cb0 store n (dest_name_of n)).2)
          :: (update_refs_from desc timestr cb0 rest
              (update_one_ref desc timestr cb0 store n (dest_name_of n)).1).2 := rfl
    rw [hSrw, hOrw]
    refine List.Forall₂.cons ⟨rfl, ?_⟩ ?_
    · -- SettledP for the head: establish it in the store right after the
      -- head's own update, then transport along the processing of `rest`
      have hpresn : ∀ {t : Target},
          lookupRef (update_one_ref desc timestr cb0 store n (dest_name_of n)).1 n
            = some t →
          lookupRef (update_refs_from desc timestr cb0 rest
            (update_one_ref desc timestr cb0 store n (dest_name_of n)).1).1 n
            = some t := by
        intro t ht
        rw [urf_staging_preserve hrest_dst hn_rem]
        exact ht
      have hpresd : ∀ {t : Target},
          lookupRef (update_one_ref desc timestr cb0 store n (dest_name_of n)).1
            (dest_name_of n) = some t →
          lookupRef (update_refs_from desc timestr cb0 rest
            (update_one_ref desc timestr cb0 store n (dest_name_of n)).1).1
            (dest_name_of n) = some t := by
        intro t ht
        exact urf_preserve ht hd_frame
      cases hd : lookupRef store (dest_name_of n) with
      | none =>
        -- Case A
        rw [uor_created hu hd] at hpresn hpresd ⊢
        have h1n : lookupRef (createRef store (dest_name_of n) u) n = some u := by
          rw [lookupRef_createRef_ne u (fun hc => by
            rw [hc, hn_rem] at hn_dst; exact Bool.noConfusion hn_dst)]
          exact hu
        have h1d : lookupRef (createRef store (dest_name_of n) u) (dest_name_of n)
            = some u := by
          unfold createRef
          rw [lookupRef_append_of_none hd]
          simp [lookupRef]
        exact ⟨u, hpresn h1n, hpresd h1d⟩
      | some v =>
        by_cases heq : u = v
        · -- Case B
          subst heq
          rw [uor_noop hu hd] at hpresn hpresd ⊢
          exact ⟨u, hpresn hu, hpresd hd⟩
        · by_cases hff : bothOidsDesc desc u v = true
          · -- Case C
            rw [uor_ff hu hd heq hff] at hpresn hpresd ⊢
            have hnd : n ≠ dest_name_of n := fun hc => by
              rw [← hc, hn_rem] at hn_dst; exact Bool.noConfusion hn_dst
            have h1n : lookupRef (setTarget store (dest_name_of n) u) n = some u := by
              rw [lookupRef_setTarget_ne u hnd]; exact hu
            exact ⟨u, hpresn h1n, hpresd (lookupRef_setTarget_self hd u)⟩
          · rw [Bool.not_eq_true] at hff
            have hnd : n ≠ dest_name_of n := fun hc => by
              rw [← hc, hn_rem] at hn_dst; exact Bool.noConfusion hn_dst
            have hbn : backup_ref_name store (dest_name_of n) timestr ≠ n := by
              intro hc
              have := @backup_ref_name_not_remote store (dest_name_of n) timestr hn_dst
              rw [hc, hn_rem] at this
              exact Bool.noConfusion this
            have hover :
                lookupRef (setTarget (createRef store
                    (backup_ref_name store (dest_name_of n) timestr) v)
                  (dest_name_of n) u) n = some u ∧
                lookupRef (setTarget (createRef store
                    (backup_ref_name store (dest_name_of n) timestr) v)
                  (dest_name_of n) u) (dest_name_of n) = some u := by
              constructor
              · rw [lookupRef_setTarget_ne u hnd, lookupRef_createRef_ne v hbn]
                exact hu
              · exact lookupRef_setTarget_self
                  (lookupRef_createRef_of_isSome hd _ v) u
            cases hcb0 : cb0 with
            | none =>
              -- Case D with no policy: warn, back up, overwrite
              subst hcb0
              rw [uor_warned hu hd heq hff] at hpresn hpresd ⊢
              exact ⟨u, hpresn hover.1, hpresd hover.2⟩
            | some cb =>
              subst hcb0
              by_cases hcb : cb n u (dest_name_of n) v
                  (backup_ref_name store (dest_name_of n) timestr) = true
              · -- Case D, policy accepts
                rw [uor_accepted hu hd heq hff hcb] at hpresn hpresd ⊢
                exact ⟨u, hpresn hover.1, hpresd hover.2⟩
              · -- Case D, policy declines
                rw [Bool.not_eq_true] at hcb
                rw [uor_skipped hu hd heq hff hcb] at hpresn hpresd ⊢
                refine ⟨u, v, hpresn hu, hpresd hd, heq, hff, cb, rfl, ?_⟩
                intro b
                rw [h2 n u (dest_name_of n) v b
                  (backup_ref_name store (dest_name_of n) timestr)]
                exact hcb
    · exact hrec

theorem pass2_noop (desc : String → String → Bool) (timestr : String)
    (cb0 : Option NonffCallback) :
    ∀ {ns : List String} {os : List (String × Outcome)} {store : RefStore},
    List.Forall₂ (fun n p => p.1 = n ∧ SettledP desc cb0 n p.2 store) ns os →
    update_refs_from desc timestr cb0 ns store
      = (store, os.map (fun p => (p.1, pass2_outcome p.2))) := by
  intro ns os store h
  induction h with
  | nil => rfl
  | cons hhead htail ih =>
    rename_i n q ns2 os2
    obtain ⟨hq1, hsett⟩ := hhead
    obtain ⟨qn, qo⟩ := q
    simp only at hq1
    subst hq1
    cases qo with
    | refNotFound => exact absurd hsett (by simp [SettledP])
    | divergedSkipped =>
      obtain ⟨t, td, hn, hd, hne, hff, cb, hcb0, hrej⟩ := hsett
      subst hcb0
      have hstep : update_one_ref desc timestr (some cb) store qn (dest_name_of qn)
          = (store, Outcome.divergedSkipped) := uor_skipped hn hd hne hff
        (hrej (backup_ref_name store (dest_name_of qn) timestr))
      unfold update_refs_from
      simp [hstep, ih, pass2_outcome]
    | created dest t0 =>
      obtain ⟨t, hn, hd⟩ := hsett
      have hstep : update_one_ref desc timestr cb0 store qn (dest_name_of qn)
          = (store, Outcome.noop) := uor_noop hn hd
      unfold update_refs_from
      simp [hstep, ih, pass2_outcome]
    | noop =>
      obtain ⟨t, hn, hd⟩ := hsett
      have hstep : update_one_ref desc timestr cb0 store qn (dest_name_of qn)
          = (store, Outcome.noop) := uor_noop hn hd
      unfold update_refs_from
      simp [hstep, ih, pass2_outcome]
    | fastForwarded msg =>
      obtain ⟨t, hn, hd⟩ := hsett
      have hstep : update_one_ref desc timestr cb0 store qn (dest_name_of qn)
          = (store, Outcome.noop) := uor_noop hn hd
      unfold update_refs_from
      simp [hstep, ih, pass2_outcome]
    | divergedWarned b old msg =>
      obtain ⟨t, hn, hd⟩ := hsett
      have hstep : update_one_ref desc timestr cb0 store qn (dest_name_of qn)
          = (store, Outcome.noop) := uor_noop hn hd
      unfold update_refs_from
      simp [hstep, ih, pass2_outcome]
    | divergedAccepted b old msg =>
      obtain ⟨t, hn, hd⟩ := hsett
      have hstep : update_one_ref desc timestr cb0 store qn (dest_name_of qn)
          = (store, Outcome.noop) := uor_noop hn hd
      unfold update_refs_from
      simp [hstep, ih, pass2_outcome]

/-! ### Storage failures

The source performs reference creation and updates through pygit2, whose
calls can raise on storage I/O errors.  `update_refs` wraps nothing in
`try`: an exception raised while processing one reference propagates and
aborts the whole loop.  To express this, the following variant of the
embedding threads a failure oracle `failNames` (which reference names the
store fails to create/update) and mirrors Python exception semantics:
in-place mutations made before the failure persist, and the first failure
ends processing. -/

def createRefE (failNames : String → Bool) (store : RefStore) (name : String)
    (t : Target) : RefStore × Option String :=
  if failNames name then (store, some ("cannot create reference " ++ name))
  else (createRef store name t, none)

def setTargetE (failNames : String → Bool) (store : RefStore) (name : String)
    (t : Target) : RefStore × Option String :=
  if failNames name then (store, some ("cannot update reference " ++ name))
  else (setTarget store name t, none)

/-- The shared fall-through block of the diverged branch (create the
backup reference, then retarget the destination), with failures. -/
def diverged_overwrite_e (failNames : String → Bool) (store : RefStore)
    (dest_name backupName : String) (refT destT : Target) :
    RefStore × Option String :=
  match createRefE failNames store backupName destT with
  | (s, some e) => (s, some e)
  | (s, none) => setTargetE failNames s dest_name refT

/-- `_update_one_ref` with the failure oracle.  `Except.error` models an
exception propagating out of the call (including the `KeyError` of the
initial `lookup_reference`); the store component carries the mutations
already performed. -/
def update_one_ref_e (failNames : String → Bool) (desc : String → String → Bool)
    (timestr : String) (nonff_callback : Option NonffCallback)
    (store : RefStore) (ref_name dest_name : String) :
    RefStore × Except String Outcome :=
  match lookupRef store ref_name with
  | none => (store, Except.error ("KeyError: " ++ ref_name))
  | some refT =>
    match lookupRef store dest_name with
    | none =>
      match createRefE failNames store dest_name refT with
      | (s, some e) => (s, Except.error e)
      | (s, none) => (s, Except.ok (Outcome.created dest_name refT))
    | some destT =>
      if refT = destT then
        (store, Except.ok Outcome.noop)
      else if bothOidsDesc desc refT destT then
        match setTargetE failNames store dest_name refT with
        | (s, some e) => (s, Except.error e)
        | (s, none) => (s, Except.ok (Outcome.fastForwarded (ff_msg dest_name ref_name)))
      else
        match nonff_callback with
        | none =>
          match diverged_overwrite_e failNames store dest_name
              (backup_ref_name store dest_name timestr) refT destT with
          | (s, some e) => (s, Except.error e)
          | (s, none) =>
            (s, Except.ok (Outcome.divergedWarned
              (backup_ref_name store dest_name timestr) destT
              (replace_msg dest_name ref_name (backup_ref_name store dest_name timestr))))
        | some cb =>
          if cb ref_name refT dest_name destT (backup_ref_name store dest_name timestr) then
            match diverged_overwrite_e failNames store dest_name
                (backup_ref_name store dest_name timestr) refT destT with
            | (s, some e) => (s, Except.error e)
            | (s, none) =>
              (s, Except.ok (Outcome.divergedAccepted
                (backup_ref_name store dest_name timestr) destT
                (replace_msg dest_name ref_name (backup_ref_name store dest_name timestr))))
          else
            (store, Except.ok Outcome.divergedSkipped)

/-- The `update_refs` loop with the failure oracle: `for ref_name in
filter(...)` with no `try` around the body, so the first error aborts the
loop, the remaining names are never processed, and the single exception
(not an aggregate) reaches the caller. -/
def update_refs_from_e (failNames : String → Bool) (desc : String → String → Bool)
    (timestr : String) (nonff_callback : Option NonffCallback) :
    List String → RefStore → RefStore × List (String × Outcome) × Option String
  | [], store => (store, [], none)
  | n :: rest, store =>
    match update_one_ref_e failNames desc timestr nonff_callback store n
        (dest_name_of n) with
    | (s, Except.error e) => (s, [], some e)
    | (s, Except.ok o) =>
      match update_refs_from_e failNames desc timestr nonff_callback rest s with
      | (s2, os, err) => (s2, (n, o) :: os, err)

def update_refs_e (failNames : String → Bool) (desc : String → String → Bool)
    (timestr : String) (nonff_callback : Option NonffCallback)
    (store : RefStore) : RefStore × List (String × Outcome) × Option String :=
  update_refs_from_e failNames desc timestr nonff_callback (staging_refs store) store

/-- With no failing names, the fallible embedding agrees with the pure
one whenever the looked-up reference exists (as it always does for names
taken from the reference list itself). -/
theorem update_one_ref_e_no_fail (desc : String → String → Bool)
    (timestr : String) (cb0 : Option NonffCallback) (store : RefStore)
    (ref_name dest_name : String) {t : Target}
    (hr : lookupRef store ref_name = some t) :
    update_one_ref_e (fun _ => false) desc timestr cb0 store ref_name dest_name
      = ((update_one_ref desc timestr cb0 store ref_name dest_name).1,
         Except.ok (update_one_ref desc timestr cb0 store ref_name dest_name).2) := by
  cases hd : lookupRef store dest_name with
  | none =>
    rw [uor_created hr hd]
    simp [update_one_ref_e, hr, hd, createRefE]
  | some td =>
    by_cases heq : t = td
    · subst heq
      rw [uor_noop hr hd]
      simp [update_one_ref_e, hr, hd]
    · by_cases hff : bothOidsDesc desc t td = true
      · rw [uor_ff hr hd heq hff]
        simp [update_one_ref_e, hr, hd, heq, hff, setTargetE]
      · rw [Bool.not_eq_true] at hff
        cases cb0 with
        | none =>
          rw [uor_warned hr hd heq hff]
          simp [update_one_ref_e, hr, hd, heq, hff, diverged_overwrite_e,
            createRefE, setTargetE]
        | some cb =>
          by_cases hcb : cb ref_name t dest_name td
              (backup_ref_name store dest_name timestr) = true
          · rw [uor_accepted hr hd heq hff hcb]
            simp [update_one_ref_e, hr, hd, heq, hff, hcb, diverged_overwrite_e,
              createRefE, setTargetE]
          · rw [Bool.not_eq_true] at hcb
            rw [uor_skipped hr hd heq hff hcb]
            simp [update_one_ref_e, hr, hd, heq, hff, hcb]

/-! ### `LocalBackup.__init__`: destination path check -/

/-- Python's substring test `pat in s`, as a Boolean on character
lists. -/
def contains_sub (pat : List Char) : List Char → Bool
  | [] => pat.isEmpty
  | c :: rest => pat.isPrefixOf (c :: rest) || contains_sub pat rest

/-- `'..' in str(self.dest_path)`. -/
def has_dotdot (s : String) : Bool :=
  contains_sub "..".data s.data

/-- `LocalBackup.__init__`: `dest_path = Path(base_dir) / (repo.full_name
+ ".git")` followed by `assert '..' not in str(dest_path)`.  The
`pathlib` join with a relative right operand concatenates with a
separator; `none` models the `AssertionError` raised before any other
work. -/
def local_backup_init (base_dir full_name : String) : Option String :=
  if has_dotdot (base_dir ++ "/" ++ (full_name ++ ".git")) then none
  else some (base_dir ++ "/" ++ (full_name ++ ".git"))

theorem contains_sub_nil (l : List Char) : contains_sub [] l = true := by
  induction l with
  | nil => rfl
  | cons c rest ih => simp [contains_sub, ih]

theorem contains_sub_append_left {pat l : List Char} (a : List Char)
    (h : contains_sub pat l = true) : contains_sub pat (a ++ l) = true := by
  induction a with
  | nil => exact h
  | cons x a ih => simp [contains_sub, ih]

theorem contains_sub_append_right {pat l : List Char} (b : List Char)
    (h : contains_sub pat l = true) : contains_sub pat (l ++ b) = true := by
  induction l with
  | nil =>
    have : pat = [] := by
      cases pat with
      | nil => rfl
      | cons p ps => exact absurd h (by simp [contains_sub])
    rw [this]
    exact contains_sub_nil b
  | cons c rest ih =>
    rw [contains_sub] at h
    rcases Bool.or_eq_true_iff.mp h with hpre | hrec
    · have hp : pat <+: c :: rest := List.isPrefixOf_iff_prefix.mp hpre
      have hp2 : pat <+: (c :: rest) ++ b := hp.trans (List.prefix_append _ b)
      have := List.isPrefixOf_iff_prefix.mpr hp2
      simp only [List.cons_append] at this ⊢
      rw [contains_sub, this]
      simp
    · simp only [List.cons_append]
      rw [contains_sub, ih hrec]
      simp

/-! ### `GitSource.from_dict` -/

/-- Python mapping lookup `d[k]` over an association list (dict keys are
unique; first match). -/
def lookupKey {α : Type} : List (String × α) → String → Option α
  | [], _ => none
  | (k, v) :: rest, key => if k = key then some v else lookupKey rest key

/-- `GitSource.from_dict(d)`: `found_items = [(k, C) for k, C in
registry.items() if k in d]`, then exactly-one dispatch.  The registry is
the class registry keyed by tag; a registered class is abstracted as a
value of type `κ`, and the kwargs value as a value of type `α`.  The
`none` inner branch is unreachable (the tag was found among `d`'s
keys). -/
def from_dict {κ α : Type} (registry : List (String × κ))
    (d : List (String × α)) : Except String (κ × α) :=
  match registry.filter (fun p => d.any (fun q => q.1 == p.1)) with
  | [] => Except.error "unknown source type"
  | [kC] =>
    match lookupKey d kC.1 with
    | some args => Except.ok (kC.2, args)
    | none => Except.error "tag key vanished from the mapping"
  | _ :: _ :: _ => Except.error "multiple source types"

theorem lookupKey_isSome_of_any {α : Type} {d : List (String × α)} {key : String}
    (h : d.any (fun q => q.1 == key) = true) : ∃ v, lookupKey d key = some v := by
  induction d with
  | nil => simp at h
  | cons p rest ih =>
    obtain ⟨k, v⟩ := p
    by_cases hk : k = key
    · exact ⟨v, by simp [lookupKey, hk]⟩
    · simp only [List.any_cons, Bool.or_eq_true_iff] at h
      rcases h with h | h
      · exact absurd (by simpa using h) hk
      · obtain ⟨v2, hv⟩ := ih h
        exact ⟨v2, by simp [lookupKey, hk, hv]⟩

theorem lookupRef_createRef_self {s : RefStore} {b : String}
    (h : lookupRef s b = none) (t : Target) :
    lookupRef (createRef s b t) b = some t := by
  unfold createRef
  rw [lookupRef_append_of_none h]
  simp [lookupRef]

theorem setTarget_length (s : RefStore) (n : String) (t : Target) :
    (setTarget s n t).length = s.length := by
  simp [setTarget]

/-! ### Concrete fixtures used by counterexamples and witnesses -/

/-- An ancestry oracle with no ancestry at all (every pair diverged). -/
def descF : String → String → Bool := fun _ _ => false

/-- One staging reference diverged from its published reference. -/
def cexStoreC1 : RefStore :=
  [("refs/git-backup/origin/heads/m", Target.oid "c3"),
   ("refs/heads/m", Target.oid "c1")]

/-- Two staging references whose published references do not exist yet. -/
def storeC3 : RefStore :=
  [("refs/git-backup/origin/heads/a", Target.oid "c1"),
   ("refs/git-backup/origin/heads/b", Target.oid "c2")]

/-- A storage oracle on which creating `refs/heads/a` fails. -/
def failC3 : String → Bool := fun nm => nm == "refs/heads/a"

/-- A diverged reference plus a second staging reference whose published
name coincides with the first reference's proposed backup name. -/
def cexStoreC5 : RefStore :=
  [("refs/git-backup/origin/heads/m", Target.oid "c3"),
   ("refs/git-backup/origin/heads/m_replaced_T", Target.oid "c9"),
   ("refs/heads/m", Target.oid "c1")]

/-- A pure conflict policy whose decision depends on the proposed backup
name. -/
def cexCbC5 : NonffCallback := fun _ _ _ _ b => b != "refs/heads/m_replaced_T"

/-- A store with one staging reference already reconciled. -/
def wStore5 : RefStore :=
  [("refs/git-backup/origin/heads/m", Target.oid "a"),
   ("refs/heads/m", Target.oid "a")]

/-! ## Claims -/

/-- C1, counterexample: the claim says that with no conflict policy a
diverged published reference is left untouched.  On the concrete store
with staging `heads/m ↦ c3` diverged from published `refs/heads/m ↦ c1`,
a single reconcile pass with no policy moves the published reference to
`c3`: it is not left untouched. -/
theorem C1_counterexample :
    lookupRef cexStoreC1 "refs/heads/m" = some (Target.oid "c1") ∧
    lookupRef (update_refs descF "T" none cexStoreC1).1 "refs/heads/m"
      = some (Target.oid "c3") := by
  constructor <;> decide

/-- C1, amended: with no conflict policy supplied, a diverged (Case D)
staging reference causes a warning outcome under which the published
reference is first backed up (at the name `_backup_ref_name` proposes,
keeping the old target) and then overwritten with the staging target —
it is not left untouched. -/
theorem C1_amended (desc : String → String → Bool) (timestr : String)
    (store : RefStore) (ref_name dest_name : String) {t td : Target}
    (hr : lookupRef store ref_name = some t)
    (hd : lookupRef store dest_name = some td)
    (hne : t ≠ td) (hff : bothOidsDesc desc t td = false) :
    (update_one_ref desc timestr none store ref_name dest_name).2
      = Outcome.divergedWarned (backup_ref_name store dest_name timestr) td
          (replace_msg dest_name ref_name (backup_ref_name store dest_name timestr)) ∧
    lookupRef (update_one_ref desc timestr none store ref_name dest_name).1 dest_name
      = some t ∧
    lookupRef (update_one_ref desc timestr none store ref_name dest_name).1
      (backup_ref_name store dest_name timestr) = some td := by
  have hun := backup_ref_name_unused store dest_name timestr
  have hbd : backup_ref_name store dest_name timestr ≠ dest_name := by
    intro hc
    rw [hc, hd] at hun
    exact Option.noConfusion hun
  rw [uor_warned hr hd hne hff]
  refine ⟨rfl, ?_, ?_⟩
  · exact lookupRef_setTarget_self (lookupRef_createRef_of_isSome hd _ td) t
  · rw [lookupRef_setTarget_ne t hbd]
    exact lookupRef_createRef_self hun td

/-- C1, witness for the amended theorem. -/
theorem C1_witness :
    (update_one_ref descF "T" none cexStoreC1
        "refs/git-backup/origin/heads/m" "refs/heads/m").2
      = Outcome.divergedWarned "refs/heads/m_replaced_T" (Target.oid "c1")
          (replace_msg "refs/heads/m" "refs/git-backup/origin/heads/m"
            "refs/heads/m_replaced_T") ∧
    lookupRef (update_one_ref descF "T" none cexStoreC1
        "refs/git-backup/origin/heads/m" "refs/heads/m").1 "refs/heads/m"
      = some (Target.oid "c3") ∧
    lookupRef (update_one_ref descF "T" none cexStoreC1
        "refs/git-backup/origin/heads/m" "refs/heads/m").1 "refs/heads/m_replaced_T"
      = some (Target.oid "c1") := by
  have h := C1_amended descF "T" cexStoreC1
    "refs/git-backup/origin/heads/m" "refs/heads/m"
    (show lookupRef cexStoreC1 "refs/git-backup/origin/heads/m"
      = some (Target.oid "c3") by decide)
    (show lookupRef cexStoreC1 "refs/heads/m" = some (Target.oid "c1") by decide)
    (by decide) (by decide)
  have hb : backup_ref_name cexStoreC1 "refs/heads/m" "T"
      = "refs/heads/m_replaced_T" := by decide
  rw [hb] at h
  exact h

/-- C2: when a diverged (Case D) update is actually applied (the policy
accepts), the backup reference is created at exactly the name proposed to
the policy, pointing at the published reference's old target, and after
the published reference is updated the backup still holds that old
target. -/
theorem C2_no_loss (desc : String → String → Bool) (timestr : String)
    (store : RefStore) (ref_name dest_name : String) (cb : NonffCallback)
    {t td : Target}
    (hr : lookupRef store ref_name = some t)
    (hd : lookupRef store dest_name = some td)
    (hne : t ≠ td) (hff : bothOidsDesc desc t td = false)
    (hcb : cb ref_name t dest_name td (backup_ref_name store dest_name timestr) = true) :
    (update_one_ref desc timestr (some cb) store ref_name dest_name).2
      = Outcome.divergedAccepted (backup_ref_name store dest_name timestr) td
          (replace_msg dest_name ref_name (backup_ref_name store dest_name timestr)) ∧
    lookupRef (update_one_ref desc timestr (some cb) store ref_name dest_name).1
      (backup_ref_name store dest_name timestr) = some td ∧
    lookupRef (update_one_ref desc timestr (some cb) store ref_name dest_name).1
      dest_name = some t := by
  have hun := backup_ref_name_unused store dest_name timestr
  have hbd : backup_ref_name store dest_name timestr ≠ dest_name := by
    intro hc
    rw [hc, hd] at hun
    exact Option.noConfusion hun
  rw [uor_accepted hr hd hne hff hcb]
  refine ⟨rfl, ?_, ?_⟩
  · rw [lookupRef_setTarget_ne t hbd]
    exact lookupRef_createRef_self hun td
  · exact lookupRef_setTarget_self (lookupRef_createRef_of_isSome hd _ td) t

/-- C2, witness: a policy that accepts everything, on the diverged
store. -/
theorem C2_witness :
    lookupRef (update_one_ref descF "T" (some (fun _ _ _ _ _ => true)) cexStoreC1
        "refs/git-backup/origin/heads/m" "refs/heads/m").1 "refs/heads/m_replaced_T"
      = some (Target.oid "c1") ∧
    lookupRef (update_one_ref descF "T" (some (fun _ _ _ _ _ => true)) cexStoreC1
        "refs/git-backup/origin/heads/m" "refs/heads/m").1 "refs/heads/m"
      = some (Target.oid "c3") := by
  have h := C2_no_loss descF "T" cexStoreC1
    "refs/git-backup/origin/heads/m" "refs/heads/m" (fun _ _ _ _ _ => true)
    (show lookupRef cexStoreC1 "refs/git-backup/origin/heads/m"
      = some (Target.oid "c3") by decide)
    (show lookupRef cexStoreC1 "refs/heads/m" = some (Target.oid "c1") by decide)
    (by decide) (by decide) (by decide)
  have hb : backup_ref_name cexStoreC1 "refs/heads/m" "T"
      = "refs/heads/m_replaced_T" := by decide
  rw [hb] at h
  exact ⟨h.2.1, h.2.2⟩

/-- C3, counterexample: the claim says a creation failure on one
reference must not abort the others and failures are aggregated.  On a
batch of two new staging references where creating the first published
reference fails, the loop stops: the second reference is never processed
(its published reference is not created), no outcomes are reported, and
the single error propagates. -/
theorem C3_counterexample :
    update_refs_e failC3 descF "T" none storeC3
      = (storeC3, [], some "cannot create reference refs/heads/a") ∧
    lookupRef (update_refs_e failC3 descF "T" none storeC3).1 "refs/heads/b"
      = none := by
  constructor <;> decide

/-- C3, amended: a reference creation/update failure while processing one
reference aborts processing of the remaining references: the exception
propagates to the caller immediately, every staging reference after the
failing one is left unprocessed (the result does not depend on them), and
no aggregate of per-reference failures is produced (the outcome list is
cut short and a single error is surfaced). -/
theorem C3_amended (failNames : String → Bool) (desc : String → String → Bool)
    (timestr : String) (cb0 : Option NonffCallback) (store : RefStore)
    (n : String) (rest : List String) {s1 : RefStore} {e : String}
    (h : update_one_ref_e failNames desc timestr cb0 store n (dest_name_of n)
      = (s1, Except.error e)) :
    update_refs_from_e failNames desc timestr cb0 (n :: rest) store
      = (s1, [], some e) := by
  unfold update_refs_from_e
  rw [h]

/-- C3, witness for the amended theorem. -/
theorem C3_witness :
    update_refs_from_e failC3 descF "T" none
      ["refs/git-backup/origin/heads/a", "refs/git-backup/origin/heads/b"] storeC3
      = (storeC3, [], some "cannot create reference refs/heads/a") := by
  have h := C3_amended failC3 descF "T" none storeC3
    "refs/git-backup/origin/heads/a" ["refs/git-backup/origin/heads/b"]
    (by rfl)
  exact h

/-- C4: on two direct, unequal object-id targets where the staging target
is a descendant of the published target (Case C), reconciliation
retargets the published reference to the staging target with the log
message naming both references, creates no reference (the name list is
unchanged, hence no backup), and the result is the same for every
conflict policy — the policy is never consulted. -/
theorem C4_fast_forward (desc : String → String → Bool) (timestr : String)
    (store : RefStore) (ref_name dest_name : String) {a b : String}
    (hr : lookupRef store ref_name = some (Target.oid a))
    (hd : lookupRef store dest_name = some (Target.oid b))
    (hne : Target.oid a ≠ Target.oid b)
    (hdesc : desc a b = true) :
    ∀ cb0 : Option NonffCallback,
      update_one_ref desc timestr cb0 store ref_name dest_name
        = (setTarget store dest_name (Target.oid a),
           Outcome.fastForwarded (ff_msg dest_name ref_name)) ∧
      (update_one_ref desc timestr cb0 store ref_name dest_name).1.map Prod.fst
        = store.map Prod.fst ∧
      ff_msg dest_name ref_name
        = "git-backup: Fast-forward \x27" ++ dest_name ++ "\x27 to \x27"
            ++ ref_name ++ "\x27" := by
  intro cb0
  have hff : bothOidsDesc desc (Target.oid a) (Target.oid b) = true := by
    simp [bothOidsDesc, hdesc]
  refine ⟨uor_ff hr hd hne hff, ?_, rfl⟩
  rw [uor_ff hr hd hne hff]
  exact setTarget_map_fst store dest_name (Target.oid a)

/-- C4, witness: a two-commit history where `c2` descends from `c1`. -/
theorem C4_witness :
    update_one_ref (fun x y => x == "c2" && y == "c1") "T" none
      [("refs/git-backup/origin/heads/m", Target.oid "c2"),
       ("refs/heads/m", Target.oid "c1")]
      "refs/git-backup/origin/heads/m" "refs/heads/m"
      = (setTarget
          [("refs/git-backup/origin/heads/m", Target.oid "c2"),
           ("refs/heads/m", Target.oid "c1")] "refs/heads/m" (Target.oid "c2"),
         Outcome.fastForwarded
           (ff_msg "refs/heads/m" "refs/git-backup/origin/heads/m")) :=
  (C4_fast_forward (fun x y => x == "c2" && y == "c1") "T"
    [("refs/git-backup/origin/heads/m", Target.oid "c2"),
     ("refs/heads/m", Target.oid "c1")]
    "refs/git-backup/origin/heads/m" "refs/heads/m"
    (show lookupRef
        [("refs/git-backup/origin/heads/m", Target.oid "c2"),
         ("refs/heads/m", Target.oid "c1")] "refs/git-backup/origin/heads/m"
      = some (Target.oid "c2") by decide)
    (show lookupRef
        [("refs/git-backup/origin/heads/m", Target.oid "c2"),
         ("refs/heads/m", Target.oid "c1")] "refs/heads/m"
      = some (Target.oid "c1") by decide)
    (by decide) (by decide) none).1

/-- C5, counterexample: the claim quantifies over any repository state
and promises an identical published-reference set after a second
reconcile with the same staging references.  With a pure conflict policy
whose decision depends on the proposed backup name, and a staging
reference whose published name coincides with another reference's first
backup candidate, the first pass skips the diverged `refs/heads/m`
(leaving `c1`) while the second pass — the proposed backup name having
changed to `..._T_1` — overwrites it with `c3`: the published set
differs between the two passes although the staging references (names
and targets) are identical before both. -/
theorem C5_counterexample :
    lookupRef (update_refs descF "T" (some cexCbC5) cexStoreC5).1 "refs/heads/m"
      = some (Target.oid "c1") ∧
    lookupRef (update_refs descF "T" (some cexCbC5)
        (update_refs descF "T" (some cexCbC5) cexStoreC5).1).1 "refs/heads/m"
      = some (Target.oid "c3") := by
  constructor <;> decide

/-- C5, amended: for any repository state with unique reference names in
which no staging reference's derived published name lies back in the
staging namespace (so the first pass leaves the staging references
unchanged, making the "same staging references" premise hold), and any
conflict policy (if any) whose decision does not depend on the proposed
backup name, running reconciliation twice in a row (at any two
timestamps) leaves the store of the second run identical to the store of
the first, and gives every reference touched on the first pass — and
every already-equal one — the no-op Case B outcome on the second pass
(a policy-skipped reference is skipped again). -/
theorem C5_idempotent (desc : String → String → Bool) (ts1 ts2 : String)
    (cb0 : Option NonffCallback) (store : RefStore)
    (hnodup : (store.map Prod.fst).Nodup)
    (h1 : ∀ n ∈ staging_refs store, is_remote_ref (dest_name_of n) = false)
    (h2 : PolicyNameIndep cb0) :
    update_refs desc ts2 cb0 (update_refs desc ts1 cb0 store).1
      = ((update_refs desc ts1 cb0 store).1,
         (update_refs desc ts1 cb0 store).2.map (fun p => (p.1, pass2_outcome p.2))) := by
  have ha : ∀ n ∈ staging_refs store, is_remote_ref n = true :=
    fun n hn => (staging_refs_mem hn).1
  have hc : ∀ n ∈ staging_refs store, (lookupRef store n).isSome = true :=
    fun n hn => lookupRef_isSome_iff_mem.mpr (staging_refs_mem hn).2
  have hdn : (staging_refs store).Nodup := List.Nodup.filter _ hnodup
  have hforall := pass1_settled desc ts1 cb0 h2 (staging_refs store) store ha h1 hc hdn
  show update_refs_from desc ts2 cb0
      (staging_refs (update_refs_from desc ts1 cb0 (staging_refs store) store).1)
      (update_refs_from desc ts1 cb0 (staging_refs store) store).1 = _
  rw [urf_staging_refs (staging_refs store) store h1]
  exact pass2_noop desc ts2 cb0 hforall

/-- C5, witness for the amended theorem. -/
theorem C5_witness :
    update_refs descF "T2" none (update_refs descF "T1" none wStore5).1
      = ((update_refs descF "T1" none wStore5).1,
         (update_refs descF "T1" none wStore5).2.map
           (fun p => (p.1, pass2_outcome p.2))) :=
  C5_idempotent descF "T1" "T2" none wStore5 (by decide) (by decide) True.intro

/-- C6: given an existing published reference, the Case B no-op outcome
is taken exactly when the staging and published targets agree in both
kind and payload (for every conflict policy); with the default (no
policy), the store is left unchanged exactly in that case; and a direct
object-id target is never equal to a symbolic one, so that pair never
yields the no-op. -/
theorem C6_noop_iff_equal (desc : String → String → Bool) (timestr : String)
    (store : RefStore) (ref_name dest_name : String) {t td : Target}
    (hr : lookupRef store ref_name = some t)
    (hd : lookupRef store dest_name = some td) :
    (∀ cb0 : Option NonffCallback,
      ((update_one_ref desc timestr cb0 store ref_name dest_name).2 = Outcome.noop)
        ↔ t = td) ∧
    (((update_one_ref desc timestr none store ref_name dest_name).1 = store)
      ↔ t = td) ∧
    (∀ a2 b2, t = Target.oid a2 → td = Target.symbolic b2 →
      ∀ cb0 : Option NonffCallback,
        (update_one_ref desc timestr cb0 store ref_name dest_name).2
          ≠ Outcome.noop) := by
  have part1 : ∀ cb0 : Option NonffCallback,
      ((update_one_ref desc timestr cb0 store ref_name dest_name).2 = Outcome.noop)
        ↔ t = td := by
    intro cb0
    constructor
    · intro hnoop
      by_contra hne
      by_cases hff : bothOidsDesc desc t td = true
      · rw [uor_ff hr hd hne hff] at hnoop
        simp at hnoop
      · rw [Bool.not_eq_true] at hff
        cases cb0 with
        | none =>
          rw [uor_warned hr hd hne hff] at hnoop
          simp at hnoop
        | some cb =>
          by_cases hcb : cb ref_name t dest_name td
              (backup_ref_name store dest_name timestr) = true
          · rw [uor_accepted hr hd hne hff hcb] at hnoop
            simp at hnoop
          · rw [Bool.not_eq_true] at hcb
            rw [uor_skipped hr hd hne hff hcb] at hnoop
            simp at hnoop
    · intro heq
      subst heq
      rw [uor_noop hr hd]
  refine ⟨part1, ⟨?_, ?_⟩, ?_⟩
  · intro hst
    by_contra hne
    by_cases hff : bothOidsDesc desc t td = true
    · have hst2 : setTarget store dest_name t = store := by
        have h0 := @uor_ff desc timestr none store ref_name dest_name t td hr hd hne hff
        rw [h0] at hst
        exact hst
      have h2 := lookupRef_setTarget_self hd t
      rw [hst2, hd] at h2
      injection h2 with h3
      exact hne h3.symm
    · rw [Bool.not_eq_true] at hff
      have hst2 : setTarget (createRef store
          (backup_ref_name store dest_name timestr) td) dest_name t = store := by
        have h0 := @uor_warned desc timestr store ref_name dest_name t td hr hd hne hff
        rw [h0] at hst
        exact hst
      have hlen := congrArg List.length hst2
      rw [setTarget_length] at hlen
      simp [createRef] at hlen
  · intro heq
    subst heq
    rw [uor_noop hr hd]
  · intro a2 b2 ht htd cb0 hnoop
    have := (part1 cb0).mp hnoop
    rw [ht, htd] at this
    exact Target.noConfusion this

/-- C6, witness: the diverged concrete pair, policy-free. -/
theorem C6_witness :
    (((update_one_ref descF "T" none cexStoreC1
        "refs/git-backup/origin/heads/m" "refs/heads/m").2 = Outcome.noop)
      ↔ Target.oid "c3" = Target.oid "c1") ∧
    (((update_one_ref descF "T" none cexStoreC1
        "refs/git-backup/origin/heads/m" "refs/heads/m").1 = cexStoreC1)
      ↔ Target.oid "c3" = Target.oid "c1") :=
  have h := C6_noop_iff_equal descF "T" cexStoreC1
    "refs/git-backup/origin/heads/m" "refs/heads/m"
    (show lookupRef cexStoreC1 "refs/git-backup/origin/heads/m"
      = some (Target.oid "c3") by decide)
    (show lookupRef cexStoreC1 "refs/heads/m" = some (Target.oid "c1") by decide)
  ⟨h.1 none, h.2.1⟩

/-- The names produced by `N` successive invocations of
`_backup_ref_name`, each invocation followed by creating a backup
reference under the returned name (target `t0`), as the Reconciler
does. -/
def backup_names_gen (ref_name timestr : String) (t0 : Target) :
    Nat → RefStore → List String
  | 0, _ => []
  | m + 1, store =>
    backup_ref_name store ref_name timestr
      :: backup_names_gen ref_name timestr t0 m
          (createRef store (backup_ref_name store ref_name timestr) t0)

theorem backup_names_gen_unused (ref_name timestr : String) (t0 : Target) :
    ∀ (m : Nat) (store : RefStore),
      ∀ x ∈ backup_names_gen ref_name timestr t0 m store,
        lookupRef store x = none := by
  intro m
  induction m with
  | zero => intro store x hx; exact absurd hx (by simp [backup_names_gen])
  | succ m ih =>
    intro store x hx
    rcases List.mem_cons.mp hx with hx | hx
    · rw [hx]
      exact backup_ref_name_unused store ref_name timestr
    · exact lookupRef_none_of_append (ih _ x hx)

theorem backup_names_gen_nodup (ref_name timestr : String) (t0 : Target) :
    ∀ (m : Nat) (store : RefStore),
      (backup_names_gen ref_name timestr t0 m store).Nodup := by
  intro m
  induction m with
  | zero => intro store; simp [backup_names_gen]
  | succ m ih =>
    intro store
    rw [backup_names_gen, List.nodup_cons]
    refine ⟨?_, ih _⟩
    intro hmem
    have h1 := backup_names_gen_unused ref_name timestr t0 m
      (createRef store (backup_ref_name store ref_name timestr) t0) _ hmem
    have h2 := lookupRef_createRef_self
      (backup_ref_name_unused store ref_name timestr) t0
    rw [h1] at h2
    exact Option.noConfusion h2

theorem backup_names_gen_length (ref_name timestr : String) (t0 : Target) :
    ∀ (m : Nat) (store : RefStore),
      (backup_names_gen ref_name timestr t0 m store).length = m := by
  intro m
  induction m with
  | zero => intro store; rfl
  | succ m ih => intro store; simp [backup_names_gen, ih]

/-- C7: `_backup_ref_name` returns the first unused name of the candidate
sequence `<name>_replaced_<timestamp>`, `…_1`, `…_2`, …; and for any
store (in particular one already holding `N` backup references for the
same original name in the same second) `N+1` successive invocations —
each followed by creating the returned reference — produce `N+1`
pairwise-distinct names, none of which collides with a reference that
already existed. -/
theorem C7_backup_naming (store : RefStore) (ref_name timestr : String)
    (t0 : Target) (N : Nat) :
    (∃ k, backup_ref_name store ref_name timestr
        = backup_candidate (ref_name ++ "_replaced_" ++ timestr) k ∧
      lookupRef store (backup_candidate (ref_name ++ "_replaced_" ++ timestr) k)
        = none ∧
      ∀ j < k, (lookupRef store
        (backup_candidate (ref_name ++ "_replaced_" ++ timestr) j)).isSome) ∧
    (backup_names_gen ref_name timestr t0 (N + 1) store).length = N + 1 ∧
    (backup_names_gen ref_name timestr t0 (N + 1) store).Nodup ∧
    (∀ x ∈ backup_names_gen ref_name timestr t0 (N + 1) store,
      lookupRef store x = none) :=
  ⟨backup_ref_name_spec store ref_name timestr,
   backup_names_gen_length ref_name timestr t0 (N + 1) store,
   backup_names_gen_nodup ref_name timestr t0 (N + 1) store,
   backup_names_gen_unused ref_name timestr t0 (N + 1) store⟩

/-- C7, witness: two existing backup names for `refs/heads/m` in the same
second; three further invocations yield the `_1`-, `_2`- and
`_3`-suffixed names. -/
theorem C7_witness :
    backup_names_gen "refs/heads/m" "T" (Target.oid "x") 3
      [("refs/heads/m_replaced_T", Target.oid "o1"),
       ("refs/heads/m_replaced_T_1", Target.oid "o2")]
      = ["refs/heads/m_replaced_T_2", "refs/heads/m_replaced_T_3",
         "refs/heads/m_replaced_T_4"] ∧
    (backup_names_gen "refs/heads/m" "T" (Target.oid "x") 3
      [("refs/heads/m_replaced_T", Target.oid "o1"),
       ("refs/heads/m_replaced_T_1", Target.oid "o2")]).Nodup :=
  ⟨by decide,
   (C7_backup_naming
     [("refs/heads/m_replaced_T", Target.oid "o1"),
      ("refs/heads/m_replaced_T_1", Target.oid "o2")]
     "refs/heads/m" "T" (Target.oid "x") 2).2.2.1⟩

/-- C8: reconciliation never deletes a reference, and leaves every
reference whose name is not the published counterpart of some staging
reference present with its target unchanged. -/
theorem C8_frame (desc : String → String → Bool) (timestr : String)
    (cb0 : Option NonffCallback) (store : RefStore) :
    (∀ m t, lookupRef store m = some t →
      (∀ n ∈ staging_refs store, dest_name_of n ≠ m) →
      lookupRef (update_refs desc timestr cb0 store).1 m = some t) ∧
    (∀ m, (lookupRef store m).isSome = true →
      (lookupRef (update_refs desc timestr cb0 store).1 m).isSome = true) := by
  constructor
  · intro m t hm hall
    exact urf_preserve hm hall
  · intro m hm
    exact urf_isSome_mono hm

/-- C8, witness: an unrelated published reference survives a pass that
creates a new published reference. -/
theorem C8_witness :
    lookupRef (update_refs descF "T" none
      [("refs/git-backup/origin/heads/m", Target.oid "x"),
       ("refs/heads/keep", Target.oid "a")]).1 "refs/heads/keep"
      = some (Target.oid "a") :=
  (C8_frame descF "T" none
    [("refs/git-backup/origin/heads/m", Target.oid "x"),
     ("refs/heads/keep", Target.oid "a")]).1 "refs/heads/keep" (Target.oid "a")
    (by decide) (by decide)

/-- C9: a `fullName` containing the path-traversal marker `..` makes the
derived destination path contain `..`, so constructing the backup fails
(`None`) before any clone path is used; and any accepted destination
path is free of `..`. -/
theorem C9_path_traversal (base_dir full_name : String) :
    (has_dotdot full_name = true → local_backup_init base_dir full_name = none) ∧
    (∀ p, local_backup_init base_dir full_name = some p → has_dotdot p = false) := by
  constructor
  · intro h
    have hdata : (base_dir ++ "/" ++ (full_name ++ ".git")).data
        = base_dir.data ++ ("/".data ++ (full_name.data ++ ".git".data)) := by
      simp [String.data_append]
    have h2 : has_dotdot (base_dir ++ "/" ++ (full_name ++ ".git")) = true := by
      unfold has_dotdot at h ⊢
      rw [hdata]
      exact contains_sub_append_left _ (contains_sub_append_left _
        (contains_sub_append_right _ h))
    simp [local_backup_init, h2]
  · intro p hp
    unfold local_backup_init at hp
    by_cases hc : has_dotdot (base_dir ++ "/" ++ (full_name ++ ".git")) = true
    · rw [if_pos hc] at hp
      exact Option.noConfusion hp
    · rw [if_neg hc] at hp
      rw [Bool.not_eq_true] at hc
      injection hp with hp2
      rw [← hp2]
      exact hc

/-- C9, witness: a traversing full name is rejected. -/
theorem C9_witness : local_backup_init "base" "a/../etc" = none :=
  (C9_path_traversal "base" "a/../etc").1 (by decide)

/-- C10: `GitSource.from_dict` succeeds exactly when the mapping contains
exactly one registered tag among its keys, constructing from the class
registered under that tag and the corresponding value; with zero or more
than one registered tag it raises and constructs nothing. -/
theorem C10_from_dict (κ α : Type) (registry : List (String × κ))
    (d : List (String × α)) :
    (registry.filter (fun p => d.any (fun q => q.1 == p.1)) = [] →
      from_dict registry d = Except.error "unknown source type") ∧
    (∀ k C, registry.filter (fun p => d.any (fun q => q.1 == p.1)) = [(k, C)] →
      ∃ args, lookupKey d k = some args ∧
        from_dict registry d = Except.ok (C, args)) ∧
    (∀ x y rest2, registry.filter (fun p => d.any (fun q => q.1 == p.1))
        = x :: y :: rest2 →
      from_dict registry d = Except.error "multiple source types") := by
  refine ⟨?_, ?_, ?_⟩
  · intro h
    simp [from_dict, h]
  · intro k C h
    have hmem : (k, C) ∈ registry.filter (fun p => d.any (fun q => q.1 == p.1)) := by
      rw [h]
      exact List.mem_singleton_self _
    have hany : d.any (fun q => q.1 == k) = true := (List.mem_filter.mp hmem).2
    obtain ⟨args, hargs⟩ := lookupKey_isSome_of_any hany
    refine ⟨args, hargs, ?_⟩
    simp [from_dict, h, hargs]
  · intro x y rest2 h
    simp [from_dict, h]

/-- C10, witness: a two-entry registry and a mapping selecting one
tag. -/
theorem C10_witness :
    from_dict [("github", 1), ("gitlab", 2)] [("github", 42)]
      = Except.ok (1, 42) := by
  obtain ⟨args, ha, hb⟩ := (C10_from_dict Nat Nat [("github", 1), ("gitlab", 2)]
    [("github", 42)]).2.1 "github" 1 (by decide)
  have ha2 : lookupKey [("github", (42 : Nat))] "github" = some 42 := by decide
  rw [ha2] at ha
  injection ha with h42
  rw [← h42] at hb
  exact hb

end GitBackup
